import Mathlib

/-!
Verification development for the calculator engine in `src/src/App.tsx`
(richest variant: `compute`, `reduceOperator`, the deduplicating history
ledger commit, and `onSelectHistory`), plus the digit / dot / backspace /
clear handlers shared by all variants.

Modelling conventions:
* Numeric values flowing through the `decimal.js`-backed `compute` are
  modelled as exact rationals `ℚ`.  `decimal.js` performs exact decimal
  addition, subtraction and multiplication on the decimal values denoted
  by its inputs; the final conversion of such a decimal to a binary
  double (`toNumber()`) and decimal.js's finite division precision are
  abstracted away (floating-point representation is outside the scope of
  this embedding).
* `parseFloat` is modelled by `toNumberSafe` below: it parses the
  longest leading `[+-]?digits[.digits]` prefix of the string and
  returns `none` where `parseFloat` returns `NaN`.  Number-to-string
  conversion (`result.toString()`) is modelled by `ratToString`, which
  renders rationals with a power-of-ten denominator as their plain
  decimal numeral (matching JavaScript `toString` on such values) and
  renders the remaining rationals, which only arise from the idealized
  exact division, in a fraction form that `toNumberSafe` reads back
  exactly.
* State fields keep the source's names and string representations; JS
  string truthiness (`""` is falsy, `null` is falsy) is made explicit.
-/

namespace CalcApp

attribute [local semireducible] Rat.add Rat.mul Rat.inv Rat.sub

/-- Test for an ASCII digit character. -/
def isDigitCh (c : Char) : Bool := decide (48 ≤ c.toNat) && decide (c.toNat ≤ 57)

/-- The character of a single decimal digit. -/
def digitChar : Nat → Char
  | 0 => '0'
  | 1 => '1'
  | 2 => '2'
  | 3 => '3'
  | 4 => '4'
  | 5 => '5'
  | 6 => '6'
  | 7 => '7'
  | 8 => '8'
  | _ => '9'

/-- Numeric value of a digit character. -/
def charVal (c : Char) : Nat := c.toNat - 48

/-- Value of a big-endian string of digit characters. -/
def digitsToNat (cs : List Char) : Nat :=
  cs.foldl (fun acc c => 10 * acc + charVal c) 0

/-- Digits of `n`, most significant first; `fuel` bounds the recursion. -/
def natToCharsAux : Nat → Nat → List Char
  | 0, _ => []
  | fuel + 1, n =>
    if n = 0 then [] else natToCharsAux fuel (n / 10) ++ [digitChar (n % 10)]

/-- Decimal numeral of a natural number (no leading zeros, `0 ↦ "0"`). -/
def natToChars (n : Nat) : List Char :=
  if n = 0 then ['0'] else natToCharsAux n n

/-- Smallest `k` with `d ∣ 10 ^ k`, when one exists (i.e. when `d` has only
the prime factors 2 and 5, so a numerator over `d` is a finite decimal). -/
def decPow (d : Nat) : Option Nat :=
  (List.range (d + 1)).find? (fun k => 10 ^ k % d == 0)

/-- Fraction digits of value `f` padded with leading zeros to width `k`. -/
def padFrac (k f : Nat) : List Char :=
  List.replicate (k - (natToChars f).length) '0' ++ natToChars f

/-- Decimal numeral of `m / 10 ^ k` (a dot `k` digits from the right). -/
def decChars (m k : Nat) : List Char :=
  if k = 0 then natToChars m
  else natToChars (m / 10 ^ k) ++ '.' :: padFrac k (m % 10 ^ k)

/-- Rendering of the nonnegative rational `n / d`: a plain decimal numeral
when `d` divides a power of ten, a fraction form otherwise. -/
def magChars (n d : Nat) : List Char :=
  match decPow d with
  | some k => decChars (n * (10 ^ k / d)) k
  | none => natToChars n ++ '/' :: natToChars d

/-- Model of JavaScript number-to-string conversion (`x.toString()`). -/
def ratToString (q : ℚ) : String :=
  if q < 0 then ⟨'-' :: magChars q.num.natAbs q.den⟩
  else ⟨magChars q.num.natAbs q.den⟩

/-- Magnitude parsing on the split input: `intDs` is the leading run of
digits, `rest` what follows it.  A `.` continues with fraction digits, a
`/` reads back `ratToString`'s fraction form for non-finite decimals,
anything else ends the number (prefix semantics of `parseFloat`). -/
def parseMagCore (intDs rest : List Char) : Option ℚ :=
  if rest.head? = some '.' then
    let fracDs := rest.tail.takeWhile isDigitCh
    if intDs = [] ∧ fracDs = [] then none
    else some ((digitsToNat intDs : ℚ) + (digitsToNat fracDs : ℚ) / (10 : ℚ) ^ fracDs.length)
  else if rest.head? = some '/' then
    if intDs = [] then none
    else
      let denDs := rest.tail.takeWhile isDigitCh
      if denDs = [] then none
      else some ((digitsToNat intDs : ℚ) / (digitsToNat denDs : ℚ))
  else if intDs = [] then none
  else some (digitsToNat intDs : ℚ)

/-- Parse the longest leading `digits[.digits]` prefix (the magnitude part
of `parseFloat`). -/
def parseMag (cs : List Char) : Option ℚ :=
  parseMagCore (cs.takeWhile isDigitCh) (cs.dropWhile isDigitCh)

/-- Sign handling of `parseFloat` (`parseMag []` is `none`, covering the
empty string). -/
def parseNum (cs : List Char) : Option ℚ :=
  if cs.head? = some '-' then (parseMag cs.tail).map (fun q => -q)
  else if cs.head? = some '+' then parseMag cs.tail
  else parseMag cs

/-- Source `toNumberSafe` (App.tsx:672): `parseFloat(value)`, with `NaN`
returned as `null`, modelled as `none`. -/
def toNumberSafe (value : String) : Option ℚ := parseNum value.data

/-- Source `OPERATORS` (App.tsx:588). -/
def OPERATORS : List String := ["+", "-", "*", "/"]

/-- Source `isOperator` (App.tsx:647). -/
def isOperator (value : String) : Bool := decide (value ∈ OPERATORS)

/-- Source `normalizeOperator` (App.tsx:654): UI glyphs to internal ops. -/
def normalizeOperator (op : String) : String :=
  if op = "×" then "*" else if op = "÷" then "/" else op

/-- Source `toDisplayOperator` (App.tsx:663): internal ops to UI glyphs. -/
def toDisplayOperator (op : String) : String :=
  if op = "*" then "×" else if op = "/" then "÷" else op

/-- Source `compute` (App.tsx:681): the four operations, with division by
zero signalled as `null` (`none`), and `null` on an unknown operator. -/
def compute (a : ℚ) (op : String) (b : ℚ) : Option ℚ :=
  if op = "+" then some (a + b)
  else if op = "-" then some (a - b)
  else if op = "*" then some (a * b)
  else if op = "/" then (if b = 0 then none else some (a / b))
  else none

/-- Source `CalculatorState` (App.tsx:593). -/
structure CalculatorState where
  currentNumber : String
  previousNumber : String
  operation : Option String
  lastOperand : String
  isNewNumber : Bool
  historyExpression : String
deriving DecidableEq, Repr

/-- Source `RESET_STATE` (App.tsx:627). -/
def RESET_STATE : CalculatorState :=
  { currentNumber := "0"
    previousNumber := ""
    operation := none
    lastOperand := ""
    isNewNumber := true
    historyExpression := "" }

/-- Source `DIVISION_BY_ZERO_STATE` (App.tsx:639). -/
def DIVISION_BY_ZERO_STATE : CalculatorState :=
  { RESET_STATE with currentNumber := "0으로 나눌 수 없습니다" }

/-- Source `HistoryPayload` (App.tsx:617). -/
structure HistoryPayload where
  expression : String
  result : String
  operation : String
  operand : String
deriving DecidableEq, Repr

/-- JS string truthiness: the empty string is falsy. -/
def strTruthy (s : String) : Bool := s ≠ ""

/-- JS truthiness of `string | null`: `null` and `""` are falsy. -/
def opTruthy : Option String → Bool
  | none => false
  | some s => s ≠ ""

/-- The operator string held in `operation` (defined under an `opTruthy`
guard in every use, where it matches the source's direct field access). -/
def theOp (o : Option String) : String := o.getD ""

/-- Source `reduceOperator` (App.tsx:710-898): the state transition for an
operator / equals command, paired with the optional history payload. -/
def reduceOperator (prev : CalculatorState) (operator : String) :
    CalculatorState × Option HistoryPayload :=
  let currentParsed := toNumberSafe prev.currentNumber
  -- error display (unparseable) recovery: reset
  if prev.currentNumber ≠ "" ∧ currentParsed = none then
    (RESET_STATE, none)
  -- 1) repeat '='
  else if operator = "=" ∧ prev.isNewNumber = true ∧ strTruthy prev.previousNumber = true ∧
      opTruthy prev.operation = true ∧ strTruthy prev.lastOperand = true then
    match toNumberSafe prev.previousNumber, toNumberSafe prev.lastOperand with
    | some a, some b =>
      let op := theOp prev.operation
      match compute a op b with
      | none => (DIVISION_BY_ZERO_STATE, none)
      | some result =>
        let resultStr := ratToString result
        let left := prev.previousNumber
        let right := prev.lastOperand
        ({ prev with
            currentNumber := resultStr
            previousNumber := resultStr
            isNewNumber := true
            historyExpression := left ++ " " ++ toDisplayOperator op ++ " " ++ right ++ " =" },
          some ⟨left ++ " " ++ toDisplayOperator op ++ " " ++ right, resultStr, op, right⟩)
    | _, _ => (RESET_STATE, none)
  -- 2) awaiting operand (currentNumber === "")
  else if prev.currentNumber = "" then
    -- 2-1) operator substitution
    if isOperator operator = true ∧ strTruthy prev.previousNumber = true ∧
        opTruthy prev.operation = true then
      ({ prev with
          operation := some operator
          historyExpression := prev.previousNumber ++ " " ++ toDisplayOperator operator },
        none)
    -- 2-2) e.g. 7 + =  →  7 + 7
    else if operator = "=" ∧ strTruthy prev.previousNumber = true ∧
        opTruthy prev.operation = true then
      let operand := if prev.lastOperand ≠ "" then prev.lastOperand else prev.previousNumber
      match toNumberSafe prev.previousNumber, toNumberSafe operand with
      | some a, some b =>
        let op := theOp prev.operation
        match compute a op b with
        | none => (DIVISION_BY_ZERO_STATE, none)
        | some result =>
          let resultStr := ratToString result
          ({ currentNumber := resultStr
             previousNumber := resultStr
             operation := prev.operation
             lastOperand := operand
             isNewNumber := true
             historyExpression :=
               prev.previousNumber ++ " " ++ toDisplayOperator op ++ " " ++ operand ++ " =" },
            some ⟨prev.previousNumber ++ " " ++ toDisplayOperator op ++ " " ++ operand,
              resultStr, op, operand⟩)
      | _, _ => (RESET_STATE, none)
    else (prev, none)
  else
    let current := currentParsed.getD 0
    -- 3) operator right after a result: start a new chain
    if prev.isNewNumber = true ∧ isOperator operator = true ∧
        strTruthy prev.previousNumber = true ∧ opTruthy prev.operation = true then
      ({ currentNumber := ""
         previousNumber := prev.currentNumber
         operation := some operator
         lastOperand := ""
         isNewNumber := true
         historyExpression := prev.currentNumber ++ " " ++ toDisplayOperator operator },
        none)
    -- 4) chained calculation
    else if strTruthy prev.previousNumber = true ∧ opTruthy prev.operation = true then
      match toNumberSafe prev.previousNumber with
      | none => (RESET_STATE, none)
      | some a =>
        let op := theOp prev.operation
        match compute a op current with
        | none => (DIVISION_BY_ZERO_STATE, none)
        | some result =>
          let resultStr := ratToString result
          if operator = "=" then
            ({ currentNumber := resultStr
               previousNumber := resultStr
               operation := prev.operation
               lastOperand := prev.currentNumber
               isNewNumber := true
               historyExpression :=
                 prev.previousNumber ++ " " ++ toDisplayOperator op ++ " " ++
                   prev.currentNumber ++ " =" },
              some ⟨prev.previousNumber ++ " " ++ toDisplayOperator op ++ " " ++
                prev.currentNumber, resultStr, op, prev.currentNumber⟩)
          else if isOperator operator = true then
            ({ currentNumber := ""
               previousNumber := resultStr
               operation := some operator
               lastOperand := prev.currentNumber
               isNewNumber := true
               historyExpression := resultStr ++ " " ++ toDisplayOperator operator },
              none)
          else (prev, none)
    -- 5) first operator of a fresh calculation
    else if operator = "=" then
      ({ prev with isNewNumber := true }, none)
    else if isOperator operator = false then (prev, none)
    else
      let currentStr := ratToString current
      ({ currentNumber := ""
         previousNumber := currentStr
         operation := some operator
         lastOperand := currentStr
         isNewNumber := true
         historyExpression := currentStr ++ " " ++ toDisplayOperator operator },
        none)

/-- Source `handleNumber` (App.tsx:930): digit entry. -/
def handleNumber (prev : CalculatorState) (value : String) : CalculatorState :=
  if prev.isNewNumber = true ∨ prev.currentNumber = "0" then
    { prev with currentNumber := value, isNewNumber := false }
  else
    { prev with currentNumber := prev.currentNumber ++ value }

/-- Source `handleDot` (App.tsx:942): decimal point entry. -/
def handleDot (prev : CalculatorState) : CalculatorState :=
  if prev.isNewNumber = true then
    { prev with currentNumber := "0.", isNewNumber := false }
  else if prev.currentNumber.data.contains '.' then prev
  else { prev with currentNumber := prev.currentNumber ++ ".", isNewNumber := false }

/-- Source `handleBackspace` (App.tsx:955): on a result only the completed
expression banner is cleared; otherwise the last character is dropped. -/
def handleBackspace (prev : CalculatorState) : CalculatorState :=
  if prev.isNewNumber = true then
    if prev.historyExpression.data.contains '=' then
      { prev with historyExpression := "" }
    else prev
  else if prev.currentNumber.length ≤ 1 then
    { prev with currentNumber := "0", isNewNumber := true }
  else { prev with currentNumber := ⟨prev.currentNumber.data.dropLast⟩ }

/-- Source `HistoryItem` (App.tsx:605), without the `id` / `createdAt`
presentation metadata: those two fields are opaque tokens never read by
any transition or by the dedup logic. -/
structure HistoryItem where
  expression : String
  result : String
  operation : String
  operand : String
deriving DecidableEq, Repr

/-- Dedup key of a payload (App.tsx:993). -/
def payloadKey (p : HistoryPayload) : String := p.expression ++ "|" ++ p.result

/-- Dedup key of a committed entry. -/
def itemKey (it : HistoryItem) : String := it.expression ++ "|" ++ it.result

/-- Source history-commit effect (App.tsx:987-1008): a payload is appended
(newest first) only when its dedup key differs from the most recently
committed key; returns the new list and the new last key. -/
def commitPayload (p : HistoryPayload) (h : List HistoryItem) (lastKey : String) :
    List HistoryItem × String :=
  if lastKey = payloadKey p then (h, lastKey)
  else (⟨p.expression, p.result, p.operation, p.operand⟩ :: h, payloadKey p)

/-- The engine together with the ledger and its dedup ref
(`lastHistoryKeyRef`, App.tsx:917). -/
structure SystemState where
  engine : CalculatorState
  history : List HistoryItem
  lastKey : String
deriving DecidableEq, Repr

/-- Source `handleOperator` (App.tsx:974) combined with the commit effect:
the operator is normalized, the reducer runs, and a payload (passed along
only for `"="`) is committed through the dedup guard. -/
def handleOperatorSys (sys : SystemState) (operator : String) : SystemState :=
  let normalized := normalizeOperator operator
  let res := reduceOperator sys.engine normalized
  let pending := if normalized = "=" then res.2 else none
  match pending with
  | none => { sys with engine := res.1 }
  | some p =>
    let hk := commitPayload p sys.history sys.lastKey
    { engine := res.1, history := hk.1, lastKey := hk.2 }

/-- The user-command surface of the engine. -/
inductive Cmd where
  | num (value : String)
  | dot
  | backspace
  | clear
  | key (operator : String)
  | select (i : Nat)
deriving DecidableEq, Repr

/-- One command applied to the whole system.  `clear` is `handleClear`
(App.tsx:925); `select i` is `onSelectHistory` (App.tsx:1020) on the
`i`-th (newest-first) entry and is a no-op on an out-of-range index. -/
def step (sys : SystemState) : Cmd → SystemState
  | .num v => { sys with engine := handleNumber sys.engine v }
  | .dot => { sys with engine := handleDot sys.engine }
  | .backspace => { sys with engine := handleBackspace sys.engine }
  | .clear => { sys with engine := RESET_STATE }
  | .key op => handleOperatorSys sys op
  | .select i =>
    match sys.history[i]? with
    | none => sys
    | some item =>
      { sys with engine :=
        { RESET_STATE with
            currentNumber := item.result
            previousNumber := item.result
            operation := some item.operation
            lastOperand := item.operand
            isNewNumber := true
            historyExpression := item.expression ++ " =" } }

/-- The initial system: initial engine state, empty ledger, empty key. -/
def initSystem : SystemState := ⟨RESET_STATE, [], ""⟩

/-- Run a command sequence from the initial system state. -/
def run (cmds : List Cmd) : SystemState := cmds.foldl step initSystem

/-! ### Digit-string infrastructure: the printer/parser pair round-trips -/

theorem charVal_digitChar {d : Nat} (h : d < 10) : charVal (digitChar d) = d := by
  interval_cases d <;> rfl

theorem isDigitCh_digitChar {d : Nat} (h : d < 10) : isDigitCh (digitChar d) = true := by
  interval_cases d <;> rfl

theorem digitsToNat_append (l : List Char) (c : Char) :
    digitsToNat (l ++ [c]) = 10 * digitsToNat l + charVal c := by
  simp [digitsToNat, List.foldl_append]

theorem natToCharsAux_digits :
    ∀ fuel n, ∀ c ∈ natToCharsAux fuel n, isDigitCh c = true := by
  intro fuel
  induction fuel with
  | zero => intro n c hc; simp [natToCharsAux] at hc
  | succ f ih =>
    intro n c hc
    by_cases h : n = 0
    · simp [natToCharsAux, h] at hc
    · simp only [natToCharsAux, if_neg h, List.mem_append, List.mem_singleton] at hc
      rcases hc with hc | hc
      · exact ih _ _ hc
      · subst hc; exact isDigitCh_digitChar (Nat.mod_lt _ (by norm_num))

theorem digitsToNat_natToCharsAux :
    ∀ fuel n, n ≤ fuel → digitsToNat (natToCharsAux fuel n) = n := by
  intro fuel
  induction fuel with
  | zero =>
    intro n hn
    interval_cases n
    rfl
  | succ f ih =>
    intro n hn
    by_cases h : n = 0
    · subst h; rfl
    · have hlt : n / 10 < n := Nat.div_lt_self (Nat.pos_of_ne_zero h) (by norm_num)
      have hle : n / 10 ≤ f := by omega
      simp only [natToCharsAux, if_neg h]
      rw [digitsToNat_append, ih _ hle, charVal_digitChar (Nat.mod_lt _ (by norm_num))]
      omega

theorem natToCharsAux_length :
    ∀ fuel n k, n ≤ fuel → n < 10 ^ k → (natToCharsAux fuel n).length ≤ k := by
  intro fuel
  induction fuel with
  | zero => intro n k _ _; simp [natToCharsAux]
  | succ f ih =>
    intro n k hn hk
    by_cases h : n = 0
    · simp [natToCharsAux, h]
    · cases k with
      | zero => simp at hk; omega
      | succ k' =>
        have hdiv : n / 10 < 10 ^ k' := by
          rw [Nat.div_lt_iff_lt_mul (by norm_num : (0:Nat) < 10)]
          calc n < 10 ^ (k' + 1) := hk
            _ = 10 ^ k' * 10 := by rw [pow_succ]
        have hle : n / 10 ≤ f := by
          have : n / 10 < n := Nat.div_lt_self (Nat.pos_of_ne_zero h) (by norm_num)
          omega
        simp only [natToCharsAux, if_neg h, List.length_append, List.length_singleton]
        have := ih _ _ hle hdiv
        omega

theorem digitsToNat_natToChars (n : Nat) : digitsToNat (natToChars n) = n := by
  unfold natToChars
  by_cases h : n = 0
  · subst h; rfl
  · rw [if_neg h]; exact digitsToNat_natToCharsAux n n le_rfl

theorem natToChars_digits (n : Nat) : ∀ c ∈ natToChars n, isDigitCh c = true := by
  unfold natToChars
  by_cases h : n = 0
  · subst h; intro c hc; simp at hc; subst hc; rfl
  · rw [if_neg h]; exact natToCharsAux_digits n n

theorem natToChars_ne_nil (n : Nat) : natToChars n ≠ [] := by
  unfold natToChars
  by_cases h : n = 0
  · simp [h]
  · rw [if_neg h]
    cases n with
    | zero => exact absurd rfl h
    | succ m => simp [natToCharsAux, h]

theorem natToChars_length_le {n k : Nat} (hn : n < 10 ^ k) (hk : 1 ≤ k) :
    (natToChars n).length ≤ k := by
  unfold natToChars
  by_cases h : n = 0
  · simp [h]; omega
  · rw [if_neg h]; exact natToCharsAux_length n n k le_rfl hn

theorem foldl_digit_replicate_zero (z : Nat) :
    List.foldl (fun acc c => 10 * acc + charVal c) 0 (List.replicate z '0') = 0 := by
  induction z with
  | zero => rfl
  | succ m ih => simpa [List.replicate_succ, charVal] using ih

theorem digitsToNat_replicate_zero_append (z : Nat) (cs : List Char) :
    digitsToNat (List.replicate z '0' ++ cs) = digitsToNat cs := by
  simp [digitsToNat, List.foldl_append, foldl_digit_replicate_zero]

theorem digitsToNat_padFrac (k f : Nat) : digitsToNat (padFrac k f) = f := by
  unfold padFrac
  rw [digitsToNat_replicate_zero_append, digitsToNat_natToChars]

theorem padFrac_length {k f : Nat} (hf : f < 10 ^ k) (hk : 1 ≤ k) :
    (padFrac k f).length = k := by
  have h := natToChars_length_le hf hk
  simp only [padFrac, List.length_append, List.length_replicate]
  omega

theorem padFrac_digits (k f : Nat) : ∀ c ∈ padFrac k f, isDigitCh c = true := by
  intro c hc
  simp only [padFrac, List.mem_append, List.mem_replicate] at hc
  rcases hc with ⟨_, hc⟩ | hc
  · subst hc; rfl
  · exact natToChars_digits f c hc

theorem takeWhile_all {p : Char → Bool} {l : List Char} (h : ∀ c ∈ l, p c = true) :
    l.takeWhile p = l := by
  induction l with
  | nil => rfl
  | cons c cs ih =>
    rw [List.takeWhile_cons_of_pos (h c (by simp)), ih]
    intro x hx
    exact h x (by simp [hx])

theorem parseMag_all_digits {cs : List Char} (h : ∀ c ∈ cs, isDigitCh c = true)
    (hne : cs ≠ []) : parseMag cs = some (digitsToNat cs : ℚ) := by
  unfold parseMag
  rw [takeWhile_all h, List.dropWhile_eq_nil_iff.2 (fun c hc => h c hc)]
  unfold parseMagCore
  rw [if_neg (by decide), if_neg (by decide), if_neg hne]

theorem parseMag_int_dot_frac {A B : List Char} (hA : ∀ c ∈ A, isDigitCh c = true)
    (hAne : A ≠ []) (hB : ∀ c ∈ B, isDigitCh c = true) :
    parseMag (A ++ '.' :: B) =
      some ((digitsToNat A : ℚ) + (digitsToNat B : ℚ) / (10 : ℚ) ^ B.length) := by
  unfold parseMag
  rw [List.takeWhile_append_of_pos hA, List.dropWhile_append_of_pos hA,
    List.takeWhile_cons_of_neg (by decide : ¬ isDigitCh '.' = true),
    List.dropWhile_cons_of_neg (by decide : ¬ isDigitCh '.' = true),
    List.append_nil]
  unfold parseMagCore
  rw [List.head?_cons, if_pos rfl]
  simp only [List.tail_cons, takeWhile_all hB]
  rw [if_neg (by simp [hAne])]

theorem parseMag_int_slash {A B : List Char} (hA : ∀ c ∈ A, isDigitCh c = true)
    (hAne : A ≠ []) (hB : ∀ c ∈ B, isDigitCh c = true) (hBne : B ≠ []) :
    parseMag (A ++ '/' :: B) =
      some ((digitsToNat A : ℚ) / (digitsToNat B : ℚ)) := by
  unfold parseMag
  rw [List.takeWhile_append_of_pos hA, List.dropWhile_append_of_pos hA,
    List.takeWhile_cons_of_neg (by decide : ¬ isDigitCh '/' = true),
    List.dropWhile_cons_of_neg (by decide : ¬ isDigitCh '/' = true),
    List.append_nil]
  unfold parseMagCore
  rw [List.head?_cons, if_neg (by decide), if_pos rfl, if_neg hAne]
  simp only [List.tail_cons, takeWhile_all hB]
  rw [if_neg hBne]

theorem parseMag_decChars (m k : Nat) :
    parseMag (decChars m k) = some ((m : ℚ) / (10 : ℚ) ^ k) := by
  unfold decChars
  by_cases hk : k = 0
  · subst hk
    rw [if_pos rfl, parseMag_all_digits (natToChars_digits m) (natToChars_ne_nil m),
      digitsToNat_natToChars]
    norm_num
  · rw [if_neg hk]
    have hk1 : 1 ≤ k := Nat.one_le_iff_ne_zero.2 hk
    have hfrac : m % 10 ^ k < 10 ^ k := Nat.mod_lt _ (Nat.pos_pow_of_pos k (by norm_num))
    rw [parseMag_int_dot_frac (natToChars_digits _) (natToChars_ne_nil _) (padFrac_digits _ _)]
    rw [digitsToNat_natToChars, digitsToNat_padFrac, padFrac_length hfrac hk1]
    congr 1
    have key : 10 ^ k * (m / 10 ^ k) + m % 10 ^ k = m := Nat.div_add_mod m (10 ^ k)
    have hcast : ((10 ^ k * (m / 10 ^ k) + m % 10 ^ k : ℕ) : ℚ) = (m : ℚ) := by rw [key]
    push_cast at hcast
    have h10 : ((10 : ℚ)) ^ k ≠ 0 := pow_ne_zero _ (by norm_num)
    field_simp
    linarith

theorem decPow_dvd {d k : Nat} (h : decPow d = some k) : d ∣ 10 ^ k := by
  have := List.find?_some h
  exact Nat.dvd_of_mod_eq_zero (by simpa using this)

theorem parseMag_magChars (n d : Nat) (hd : 0 < d) :
    parseMag (magChars n d) = some ((n : ℚ) / (d : ℚ)) := by
  by_cases hfin : ∃ k, decPow d = some k
  · obtain ⟨k, hdp⟩ := hfin
    have hdvd : d ∣ 10 ^ k := decPow_dvd hdp
    rw [show magChars n d = decChars (n * (10 ^ k / d)) k by rw [magChars, hdp]]
    rw [parseMag_decChars]
    congr 1
    have hdc : d * (10 ^ k / d) = 10 ^ k := Nat.mul_div_cancel' hdvd
    have hc0 : (10 ^ k / d) ≠ 0 := by
      intro h0
      rw [h0, Nat.mul_zero] at hdc
      exact absurd hdc.symm (Nat.pos_iff_ne_zero.1 (Nat.pos_pow_of_pos k (by norm_num)))
    have hq : ((10 : ℚ)) ^ k = ((d : ℚ)) * ((10 ^ k / d : ℕ) : ℚ) := by
      have := congrArg (fun x : ℕ => (x : ℚ)) hdc
      push_cast at this
      rw [← this]
    rw [hq]
    push_cast
    have hcQ : ((10 ^ k / d : ℕ) : ℚ) ≠ 0 := Nat.cast_ne_zero.2 hc0
    have hdQ : ((d : ℕ) : ℚ) ≠ 0 := Nat.cast_ne_zero.2 (Nat.pos_iff_ne_zero.1 hd)
    field_simp
    ring
  · have hdp : decPow d = none := Option.eq_none_iff_forall_not_mem.2 (by
      intro k hk
      exact hfin ⟨k, hk⟩)
    rw [show magChars n d = natToChars n ++ '/' :: natToChars d by rw [magChars, hdp]]
    rw [parseMag_int_slash (natToChars_digits _) (natToChars_ne_nil _)
      (natToChars_digits _) (natToChars_ne_nil _)]
    rw [digitsToNat_natToChars, digitsToNat_natToChars]

theorem magChars_cons (n d : Nat) :
    ∃ c cs, magChars n d = c :: cs ∧ isDigitCh c = true := by
  have head_of : ∀ (m : Nat) (tl : List Char),
      ∃ c cs, natToChars m ++ tl = c :: cs ∧ isDigitCh c = true := by
    intro m tl
    obtain ⟨c, cs, hcons⟩ := List.exists_cons_of_ne_nil (natToChars_ne_nil m)
    refine ⟨c, cs ++ tl, by rw [hcons]; rfl, natToChars_digits _ c (by rw [hcons]; simp)⟩
  by_cases hfin : ∃ k, decPow d = some k
  · obtain ⟨k, hdp⟩ := hfin
    rw [show magChars n d = decChars (n * (10 ^ k / d)) k by rw [magChars, hdp]]
    unfold decChars
    by_cases hk : k = 0
    · subst hk
      rw [if_pos rfl]
      simpa using head_of (n * (10 ^ 0 / d)) []
    · rw [if_neg hk]
      exact head_of _ _
  · have hdp : decPow d = none := Option.eq_none_iff_forall_not_mem.2 (by
      intro k hk
      exact hfin ⟨k, hk⟩)
    rw [show magChars n d = natToChars n ++ '/' :: natToChars d by rw [magChars, hdp]]
    exact head_of _ _

theorem digit_ne_minus {c : Char} (h : isDigitCh c = true) : c ≠ '-' := by
  intro hc; subst hc; exact absurd h (by decide)

theorem digit_ne_plus {c : Char} (h : isDigitCh c = true) : c ≠ '+' := by
  intro hc; subst hc; exact absurd h (by decide)

theorem parseNum_magChars (n d : Nat) (hd : 0 < d) :
    parseNum (magChars n d) = some ((n : ℚ) / (d : ℚ)) := by
  obtain ⟨c, cs, hcons, hdig⟩ := magChars_cons n d
  unfold parseNum
  rw [hcons, List.head?_cons,
    if_neg (fun hcc => digit_ne_minus hdig (Option.some.inj hcc)),
    if_neg (fun hcc => digit_ne_plus hdig (Option.some.inj hcc)), ← hcons]
  exact parseMag_magChars n d hd

theorem natAbs_div_den_of_nonneg {q : ℚ} (hq : ¬ q < 0) :
    ((q.num.natAbs : ℚ)) / ((q.den : ℚ)) = q := by
  have hnum : 0 ≤ q.num := Rat.num_nonneg.2 (le_of_not_lt hq)
  have habs2 : ((q.num.natAbs : ℚ)) = ((q.num : ℚ)) := by
    rw [Int.cast_natAbs]
    exact_mod_cast abs_of_nonneg hnum
  rw [habs2]
  exact Rat.num_div_den q

theorem toNumberSafe_ratToString (q : ℚ) : toNumberSafe (ratToString q) = some q := by
  unfold toNumberSafe ratToString
  by_cases hq : q < 0
  · rw [if_pos hq]
    show parseNum ('-' :: magChars q.num.natAbs q.den) = some q
    unfold parseNum
    rw [List.head?_cons, if_pos rfl, List.tail_cons,
      parseMag_magChars _ _ q.den_pos, Option.map_some']
    congr 1
    have hnum : q.num ≤ 0 := by
      by_contra h
      push_neg at h
      exact (not_le.2 hq) (Rat.num_nonneg.1 h.le)
    have habs2 : ((q.num.natAbs : ℚ)) = -((q.num : ℚ)) := by
      rw [Int.cast_natAbs]
      exact_mod_cast abs_of_nonpos hnum
    rw [habs2, neg_div, neg_neg]
    exact Rat.num_div_den q
  · rw [if_neg hq]
    show parseNum (magChars q.num.natAbs q.den) = some q
    rw [parseNum_magChars _ _ q.den_pos]
    congr 1
    exact natAbs_div_den_of_nonneg hq

theorem magChars_ne_nil (n d : Nat) : magChars n d ≠ [] := by
  obtain ⟨c, cs, hcons, _⟩ := magChars_cons n d
  rw [hcons]
  simp

theorem toNumberSafe_ratToString_ne_none (q : ℚ) : toNumberSafe (ratToString q) ≠ none := by
  rw [toNumberSafe_ratToString]
  exact Option.some_ne_none q

theorem isOperator_ne_eq {w : String} (h : isOperator w = true) : w ≠ "=" := by
  intro hw
  subst hw
  exact absurd h (by decide)

theorem ratToString_ne_empty (q : ℚ) : ratToString q ≠ "" := by
  unfold ratToString
  intro h
  by_cases hq : q < 0
  · rw [if_pos hq] at h
    have := congrArg String.data h
    simp at this
  · rw [if_neg hq] at h
    have := congrArg String.data h
    exact magChars_ne_nil _ _ (by simpa using this)

/-! ### Branch lemmas for `reduceOperator` -/

theorem reduce_repeat_equals (s : CalculatorState) (o : String) (a b r : ℚ)
    (hnotreset : ¬ (s.currentNumber ≠ "" ∧ toNumberSafe s.currentNumber = none))
    (hnew : s.isNewNumber = true) (hPrev : s.previousNumber ≠ "")
    (hop : s.operation = some o) (ho : o ≠ "") (hlast : s.lastOperand ≠ "")
    (ha : toNumberSafe s.previousNumber = some a)
    (hb : toNumberSafe s.lastOperand = some b)
    (hres : compute a o b = some r) :
    reduceOperator s "=" =
      ({ s with
          currentNumber := ratToString r
          previousNumber := ratToString r
          isNewNumber := true
          historyExpression :=
            s.previousNumber ++ " " ++ toDisplayOperator o ++ " " ++ s.lastOperand ++ " =" },
        some ⟨s.previousNumber ++ " " ++ toDisplayOperator o ++ " " ++ s.lastOperand,
          ratToString r, o, s.lastOperand⟩) := by
  simp [reduceOperator, hnotreset, hnew, hPrev, hop, ho, hlast, ha, hb, hres,
    strTruthy, opTruthy, theOp]

theorem reduce_repeat_equals_divzero (s : CalculatorState) (o : String) (a b : ℚ)
    (hnotreset : ¬ (s.currentNumber ≠ "" ∧ toNumberSafe s.currentNumber = none))
    (hnew : s.isNewNumber = true) (hPrev : s.previousNumber ≠ "")
    (hop : s.operation = some o) (ho : o ≠ "") (hlast : s.lastOperand ≠ "")
    (ha : toNumberSafe s.previousNumber = some a)
    (hb : toNumberSafe s.lastOperand = some b)
    (hres : compute a o b = none) :
    reduceOperator s "=" = (DIVISION_BY_ZERO_STATE, none) := by
  simp [reduceOperator, hnotreset, hnew, hPrev, hop, ho, hlast, ha, hb, hres,
    strTruthy, opTruthy, theOp]

theorem reduce_substitution (s : CalculatorState) (w o : String)
    (hcur : s.currentNumber = "") (hPrev : s.previousNumber ≠ "")
    (hop : s.operation = some o) (ho : o ≠ "") (hw : isOperator w = true) :
    reduceOperator s w =
      ({ s with
          operation := some w
          historyExpression := s.previousNumber ++ " " ++ toDisplayOperator w },
        none) := by
  simp [reduceOperator, hcur, hPrev, hop, ho, hw, isOperator_ne_eq hw,
    strTruthy, opTruthy]

theorem reduce_new_chain (s : CalculatorState) (w o : String) (v : ℚ)
    (hcv : toNumberSafe s.currentNumber = some v) (hcur : s.currentNumber ≠ "")
    (hnew : s.isNewNumber = true) (hPrev : s.previousNumber ≠ "")
    (hop : s.operation = some o) (ho : o ≠ "") (hw : isOperator w = true) :
    reduceOperator s w =
      ({ currentNumber := ""
         previousNumber := s.currentNumber
         operation := some w
         lastOperand := ""
         isNewNumber := true
         historyExpression := s.currentNumber ++ " " ++ toDisplayOperator w },
        none) := by
  simp [reduceOperator, hcv, hcur, hnew, hPrev, hop, ho, hw, isOperator_ne_eq hw,
    strTruthy, opTruthy]

theorem mem_OPERATORS_ne_empty {op : String} (h : op ∈ OPERATORS) : op ≠ "" := by
  simp only [OPERATORS, List.mem_cons, List.not_mem_nil, or_false] at h
  rcases h with rfl | rfl | rfl | rfl <;> decide

theorem mem_OPERATORS_ne_eq {op : String} (h : op ∈ OPERATORS) : op ≠ "=" := by
  simp only [OPERATORS, List.mem_cons, List.not_mem_nil, or_false] at h
  rcases h with rfl | rfl | rfl | rfl <;> decide

/-- The exact value of one arithmetic step for the four operator strings
(the value carried inside `compute`'s `some`). -/
def opApply (op : String) (a b : ℚ) : ℚ :=
  if op = "+" then a + b
  else if op = "-" then a - b
  else if op = "*" then a * b
  else a / b

theorem compute_opApply {a b : ℚ} {op : String} (hop : op ∈ OPERATORS)
    (hdiv : op = "/" → b ≠ 0) : compute a op b = some (opApply op a b) := by
  simp only [OPERATORS, List.mem_cons, List.not_mem_nil, or_false] at hop
  rcases hop with rfl | rfl | rfl | rfl
  · rfl
  · rfl
  · rfl
  · show (if b = 0 then (none : Option ℚ) else some (a / b)) = some (a / b)
    rw [if_neg (hdiv rfl)]

theorem reduce_chain_divzero (s : CalculatorState) (o : String) (a v : ℚ)
    (hcv : toNumberSafe s.currentNumber = some v) (hcur : s.currentNumber ≠ "")
    (hnew : s.isNewNumber = false) (hPrev : s.previousNumber ≠ "")
    (hop : s.operation = some o) (ho : o ≠ "")
    (ha : toNumberSafe s.previousNumber = some a)
    (hres : compute a o v = none) :
    reduceOperator s "=" = (DIVISION_BY_ZERO_STATE, none) := by
  simp [reduceOperator, hcv, hcur, hnew, hPrev, hop, ho, ha, hres,
    strTruthy, opTruthy, theOp]

/-! ### Repeat-equals: shape preservation and iteration -/

/-- The state shape left by a completed `a OP b =` chain with result `r`:
both number fields hold the result text, the operator and the last
operand are retained so that `=` can be repeated. -/
abbrev ResultShape (s : CalculatorState) (r b : ℚ) (op : String) : Prop :=
  s.currentNumber = ratToString r ∧ s.previousNumber = ratToString r ∧
  s.operation = some op ∧ s.lastOperand = ratToString b ∧ s.isNewNumber = true

/-- Press `=` once (the engine part of the transition). -/
def pressEquals (s : CalculatorState) : CalculatorState := (reduceOperator s "=").1

theorem repeat_equals_step {s : CalculatorState} {r b : ℚ} {op : String}
    (hs : ResultShape s r b op) (hop : op ∈ OPERATORS) (hdiv : op = "/" → b ≠ 0) :
    reduceOperator s "=" =
      ({ s with
          currentNumber := ratToString (opApply op r b)
          previousNumber := ratToString (opApply op r b)
          isNewNumber := true
          historyExpression :=
            s.previousNumber ++ " " ++ toDisplayOperator op ++ " " ++ s.lastOperand ++ " =" },
        some ⟨s.previousNumber ++ " " ++ toDisplayOperator op ++ " " ++ s.lastOperand,
          ratToString (opApply op r b), op, s.lastOperand⟩) := by
  obtain ⟨hc, hp, ho, hl, hn⟩ := hs
  refine reduce_repeat_equals s op r b (opApply op r b) ?_ hn ?_ ho
    (mem_OPERATORS_ne_empty hop) ?_ ?_ ?_ (compute_opApply hop hdiv)
  · rw [hc]
    intro hh
    exact toNumberSafe_ratToString_ne_none r hh.2
  · rw [hp]; exact ratToString_ne_empty r
  · rw [hl]; exact ratToString_ne_empty b
  · rw [hp]; exact toNumberSafe_ratToString r
  · rw [hl]; exact toNumberSafe_ratToString b

theorem repeat_equals_shape {s : CalculatorState} {r b : ℚ} {op : String}
    (hs : ResultShape s r b op) (hop : op ∈ OPERATORS) (hdiv : op = "/" → b ≠ 0) :
    ResultShape (pressEquals s) (opApply op r b) b op := by
  obtain ⟨hc, hp, ho, hl, hn⟩ := hs
  unfold pressEquals
  rw [repeat_equals_step ⟨hc, hp, ho, hl, hn⟩ hop hdiv]
  exact ⟨rfl, rfl, ho, hl, rfl⟩

theorem repeat_equals_iterate {s : CalculatorState} {r b : ℚ} {op : String}
    (hs : ResultShape s r b op) (hop : op ∈ OPERATORS) (hdiv : op = "/" → b ≠ 0) :
    ∀ n : Nat, ResultShape (pressEquals^[n] s) ((fun x => opApply op x b)^[n] r) b op := by
  intro n
  induction n with
  | zero => exact hs
  | succ m ih =>
    rw [Function.iterate_succ_apply', Function.iterate_succ_apply']
    exact repeat_equals_shape ih hop hdiv

/-! ### The history payload emitted by the reducer (spec companion) -/

/-- Companion definition written from the spec's emission rule (§4.2/§4.4):
an event is produced exactly when the command is `Equals` and the
evaluation succeeds with a numeric result, and it carries
`{expression := "<left> <op> <right>", result, operation, operand := <right>}`
with `<right>` the right operand actually used — `lastOperand` in
repeat-equals, `lastOperand` (or `previousNumber` when `lastOperand` is
unset) in the awaiting-operand state, and the displayed operand in a
chained calculation.  All other transitions (operator chaining, operator
substitution, division by zero, unparseable operand, `Equals` with no
pending operation) emit none. -/
def specHistoryPayload (prev : CalculatorState) (operator : String) : Option HistoryPayload :=
  if prev.currentNumber ≠ "" ∧ toNumberSafe prev.currentNumber = none then none
  else if operator = "=" ∧ prev.isNewNumber = true ∧ strTruthy prev.previousNumber = true ∧
      opTruthy prev.operation = true ∧ strTruthy prev.lastOperand = true then
    match toNumberSafe prev.previousNumber, toNumberSafe prev.lastOperand with
    | some a, some b =>
      match compute a (theOp prev.operation) b with
      | none => none
      | some result =>
        some ⟨prev.previousNumber ++ " " ++ toDisplayOperator (theOp prev.operation) ++ " " ++
          prev.lastOperand, ratToString result, theOp prev.operation, prev.lastOperand⟩
    | _, _ => none
  else if prev.currentNumber = "" then
    if isOperator operator = true ∧ strTruthy prev.previousNumber = true ∧
        opTruthy prev.operation = true then none
    else if operator = "=" ∧ strTruthy prev.previousNumber = true ∧
        opTruthy prev.operation = true then
      let operand := if prev.lastOperand ≠ "" then prev.lastOperand else prev.previousNumber
      match toNumberSafe prev.previousNumber, toNumberSafe operand with
      | some a, some b =>
        match compute a (theOp prev.operation) b with
        | none => none
        | some result =>
          some ⟨prev.previousNumber ++ " " ++ toDisplayOperator (theOp prev.operation) ++ " " ++
            operand, ratToString result, theOp prev.operation, operand⟩
      | _, _ => none
    else none
  else if prev.isNewNumber = true ∧ isOperator operator = true ∧
      strTruthy prev.previousNumber = true ∧ opTruthy prev.operation = true then none
  else if strTruthy prev.previousNumber = true ∧ opTruthy prev.operation = true then
    match toNumberSafe prev.previousNumber with
    | none => none
    | some a =>
      match compute a (theOp prev.operation) ((toNumberSafe prev.currentNumber).getD 0) with
      | none => none
      | some result =>
        if operator = "=" then
          some ⟨prev.previousNumber ++ " " ++ toDisplayOperator (theOp prev.operation) ++ " " ++
            prev.currentNumber, ratToString result, theOp prev.operation, prev.currentNumber⟩
        else none
  else none

theorem reduceOperator_snd_eq_spec (s : CalculatorState) (w : String) :
    (reduceOperator s w).2 = specHistoryPayload s w := by
  unfold reduceOperator specHistoryPayload
  repeat' split <;> try rfl
  all_goals try simp_all
  all_goals repeat' split <;> try simp_all

/-! ### The operation/previousNumber invariant (claim C6) -/

/-- Claim C6's field invariant on engine states. -/
def CalcInv (s : CalculatorState) : Prop :=
  s.operation ≠ none ↔ s.previousNumber ≠ ""

set_option maxHeartbeats 1000000 in
theorem reduce_fst_calcInv (s : CalculatorState) (w : String) (h : CalcInv s) :
    CalcInv (reduceOperator s w).1 := by
  unfold CalcInv at h ⊢
  rcases ho : s.operation with _ | o <;>
    (simp only [reduceOperator]
     repeat' split <;>
       try simp_all [strTruthy, opTruthy, RESET_STATE, DIVISION_BY_ZERO_STATE,
         ratToString_ne_empty])

theorem reduce_snd_result_ne (s : CalculatorState) (w : String) :
    ∀ p, (reduceOperator s w).2 = some p → p.result ≠ "" := by
  intro p hp
  simp only [reduceOperator] at hp
  repeat' split at hp
  all_goals
    first
      | exact Option.noConfusion hp
      | (have h2 := Option.some.inj hp
         subst h2
         exact ratToString_ne_empty _)

/-- The full system invariant: the engine invariant plus nonempty result
texts in every committed ledger entry (needed for history recall). -/
def SysInv (sys : SystemState) : Prop :=
  CalcInv sys.engine ∧ ∀ it ∈ sys.history, it.result ≠ ""

theorem handleNumber_calcInv {s : CalculatorState} {v : String} (h : CalcInv s) :
    CalcInv (handleNumber s v) := by
  unfold CalcInv at h ⊢
  unfold handleNumber
  split <;> simp_all

theorem handleDot_calcInv {s : CalculatorState} (h : CalcInv s) :
    CalcInv (handleDot s) := by
  unfold CalcInv at h ⊢
  unfold handleDot
  repeat' split <;> simp_all

theorem handleBackspace_calcInv {s : CalculatorState} (h : CalcInv s) :
    CalcInv (handleBackspace s) := by
  unfold CalcInv at h ⊢
  unfold handleBackspace
  repeat' split <;> simp_all

theorem step_sysInv (sys : SystemState) (c : Cmd) (h : SysInv sys) : SysInv (step sys c) := by
  obtain ⟨hc, hh⟩ := h
  cases c with
  | num v => exact ⟨handleNumber_calcInv hc, hh⟩
  | dot => exact ⟨handleDot_calcInv hc, hh⟩
  | backspace => exact ⟨handleBackspace_calcInv hc, hh⟩
  | clear => exact ⟨by simp [step, CalcInv, RESET_STATE], hh⟩
  | key op =>
    show SysInv (handleOperatorSys sys op)
    by_cases heq : normalizeOperator op = "="
    · have h2 : (if normalizeOperator op = "=" then
          (reduceOperator sys.engine (normalizeOperator op)).2 else none) =
          (reduceOperator sys.engine (normalizeOperator op)).2 := if_pos heq
      simp only [handleOperatorSys, h2]
      cases hp : (reduceOperator sys.engine (normalizeOperator op)).2 with
      | none => exact ⟨reduce_fst_calcInv _ _ hc, hh⟩
      | some p =>
        refine ⟨reduce_fst_calcInv _ _ hc, ?_⟩
        show ∀ it ∈ (commitPayload p sys.history sys.lastKey).1, it.result ≠ ""
        by_cases hkey : sys.lastKey = payloadKey p
        · have hcp : commitPayload p sys.history sys.lastKey = (sys.history, sys.lastKey) := by
            unfold commitPayload
            rw [if_pos hkey]
          rw [hcp]
          exact fun it hit => hh it hit
        · have hcp : commitPayload p sys.history sys.lastKey =
              (⟨p.expression, p.result, p.operation, p.operand⟩ :: sys.history, payloadKey p) := by
            unfold commitPayload
            rw [if_neg hkey]
          rw [hcp]
          intro it hit
          have hit2 : it ∈ (⟨p.expression, p.result, p.operation, p.operand⟩ : HistoryItem) ::
              sys.history := hit
          rcases List.mem_cons.1 hit2 with rfl | hmem
          · exact reduce_snd_result_ne _ _ p hp
          · exact hh it hmem
    · have h2 : (if normalizeOperator op = "=" then
          (reduceOperator sys.engine (normalizeOperator op)).2 else none) =
          none := if_neg heq
      simp only [handleOperatorSys, h2]
      exact ⟨reduce_fst_calcInv _ _ hc, hh⟩
  | select i =>
    show SysInv (step sys (Cmd.select i))
    simp only [step]
    cases hi : sys.history[i]? with
    | none => exact ⟨hc, hh⟩
    | some item =>
      refine ⟨?_, hh⟩
      have hmem : item ∈ sys.history := by
        have hlt : i < sys.history.length := by
          by_contra hge
          rw [List.getElem?_eq_none (le_of_not_lt hge)] at hi
          exact Option.noConfusion hi
        have : sys.history[i]? = some sys.history[i] := List.getElem?_eq_getElem hlt
        rw [this] at hi
        rw [← Option.some.inj hi]
        exact List.getElem_mem hlt
      have hres : item.result ≠ "" := hh item hmem
      simp [CalcInv, hres]

/-! ### Ledger dedup-key invariants (claims C5 and C10) -/

/-- Adjacent committed entries carry distinct dedup keys. -/
def adjKeysDistinct (l : List HistoryItem) : Prop :=
  List.Chain' (fun x y => itemKey x ≠ itemKey y) l

/-- The ledger invariant: adjacent keys are distinct and `lastKey` is the
key of the newest entry when one exists. -/
def LedgerInv (sys : SystemState) : Prop :=
  adjKeysDistinct sys.history ∧
  ∀ it, sys.history.head? = some it → sys.lastKey = itemKey it

theorem commit_ledgerInv (p : HistoryPayload) {h : List HistoryItem} {k : String}
    (hadj : adjKeysDistinct h) (hhead : ∀ it, h.head? = some it → k = itemKey it) :
    adjKeysDistinct (commitPayload p h k).1 ∧
    ∀ it, (commitPayload p h k).1.head? = some it →
      (commitPayload p h k).2 = itemKey it := by
  by_cases hk : k = payloadKey p
  · have hcp : commitPayload p h k = (h, k) := by
      unfold commitPayload
      rw [if_pos hk]
    rw [hcp]
    exact ⟨hadj, hhead⟩
  · have hcp : commitPayload p h k =
        (⟨p.expression, p.result, p.operation, p.operand⟩ :: h, payloadKey p) := by
      unfold commitPayload
      rw [if_neg hk]
    rw [hcp]
    constructor
    · unfold adjKeysDistinct at hadj ⊢
      cases h with
      | nil => simp
      | cons x t =>
        refine List.chain'_cons.2 ⟨?_, hadj⟩
        intro hcontra
        exact hk ((hhead x rfl).trans hcontra.symm)
    · intro it hit
      rw [List.head?_cons] at hit
      rw [← Option.some.inj hit]
      rfl

theorem step_ledgerInv (sys : SystemState) (c : Cmd) (h : LedgerInv sys) :
    LedgerInv (step sys c) := by
  obtain ⟨hadj, hhead⟩ := h
  cases c with
  | num v => exact ⟨hadj, hhead⟩
  | dot => exact ⟨hadj, hhead⟩
  | backspace => exact ⟨hadj, hhead⟩
  | clear => exact ⟨hadj, hhead⟩
  | key op =>
    show LedgerInv (handleOperatorSys sys op)
    by_cases heq : normalizeOperator op = "="
    · have h2 : (if normalizeOperator op = "=" then
          (reduceOperator sys.engine (normalizeOperator op)).2 else none) =
          (reduceOperator sys.engine (normalizeOperator op)).2 := if_pos heq
      simp only [handleOperatorSys, h2]
      cases hp : (reduceOperator sys.engine (normalizeOperator op)).2 with
      | none => exact ⟨hadj, hhead⟩
      | some p =>
        have hc := commit_ledgerInv p hadj hhead
        exact ⟨hc.1, hc.2⟩
    · have h2 : (if normalizeOperator op = "=" then
          (reduceOperator sys.engine (normalizeOperator op)).2 else none) =
          none := if_neg heq
      simp only [handleOperatorSys, h2]
      exact ⟨hadj, hhead⟩
  | select i =>
    show LedgerInv (step sys (Cmd.select i))
    simp only [step]
    cases hi : sys.history[i]? with
    | none => exact ⟨hadj, hhead⟩
    | some item => exact ⟨hadj, hhead⟩

theorem run_ledgerInv (cmds : List Cmd) : LedgerInv (run cmds) := by
  have hinit : LedgerInv initSystem := by
    constructor
    · exact List.chain'_nil
    · intro it hit
      simp [initSystem] at hit
  have haux : ∀ (l : List Cmd) (sys : SystemState),
      LedgerInv sys → LedgerInv (l.foldl step sys) := by
    intro l
    induction l with
    | nil => intro sys hs; exact hs
    | cons c t ih => intro sys hs; exact ih _ (step_ledgerInv _ _ hs)
  exact haux cmds _ hinit

theorem chain_ne_getElem? :
    ∀ l : List HistoryItem, List.Chain' (fun x y => itemKey x ≠ itemKey y) l →
      ∀ (i : Nat) (a b : HistoryItem), l[i]? = some a → l[i + 1]? = some b →
        itemKey a ≠ itemKey b := by
  intro l
  induction l with
  | nil =>
    intro _ i a b ha _
    simp at ha
  | cons x t ih =>
    intro h i a b ha hb
    cases i with
    | zero =>
      rw [List.getElem?_cons_zero] at ha
      rw [List.getElem?_cons_succ] at hb
      cases t with
      | nil => simp at hb
      | cons y t2 =>
        rw [List.getElem?_cons_zero] at hb
        rw [← Option.some.inj ha, ← Option.some.inj hb]
        exact (List.chain'_cons.1 h).1
    | succ j =>
      rw [List.getElem?_cons_succ] at ha
      rw [List.getElem?_cons_succ] at hb
      exact ih h.tail j a b ha hb

theorem commit_twice_eq (p : HistoryPayload) (h : List HistoryItem) (k : String) :
    commitPayload p (commitPayload p h k).1 (commitPayload p h k).2 =
      commitPayload p h k := by
  by_cases hk : k = payloadKey p
  · have hcp : commitPayload p h k = (h, k) := by
      unfold commitPayload
      rw [if_pos hk]
    rw [hcp]
    show commitPayload p h k = (h, k)
    exact hcp
  · have hcp : commitPayload p h k =
        (⟨p.expression, p.result, p.operation, p.operand⟩ :: h, payloadKey p) := by
      unfold commitPayload
      rw [if_neg hk]
    rw [hcp]
    show commitPayload p (⟨p.expression, p.result, p.operation, p.operand⟩ :: h)
      (payloadKey p) = _
    unfold commitPayload
    rw [if_pos rfl]

theorem commit_new_length (p : HistoryPayload) (h : List HistoryItem) (k : String)
    (hk : k ≠ payloadKey p) : (commitPayload p h k).1.length = h.length + 1 := by
  unfold commitPayload
  rw [if_neg hk]
  rfl

theorem run_sysInv (cmds : List Cmd) : SysInv (run cmds) := by
  have hinit : SysInv initSystem := by
    constructor
    · simp [CalcInv, initSystem, RESET_STATE]
    · intro it hit
      simp [initSystem] at hit
  have haux : ∀ (l : List Cmd) (sys : SystemState), SysInv sys → SysInv (l.foldl step sys) := by
    intro l
    induction l with
    | nil => intro sys hs; exact hs
    | cons c t ih => intro sys hs; exact ih _ (step_sysInv _ _ hs)
  exact haux cmds _ hinit

/-! ### Claim theorems -/

/-- C1: Repeat-equals law — from a completed-chain state (currentNumber =
previousNumber = result text of `r`, operation = `op`, lastOperand = text
of `b`, isNewNumber = true), every further `=` evaluates
`compute(previousNumber, op, lastOperand)`, writes the result text to
both `currentNumber` and `previousNumber`, and leaves `operation` and
`lastOperand` unchanged, so pressing `=` `n` times equals folding the
operation `n` times; in particular `7, +, 3, =, =` shows "10" then "13". -/
theorem C1_repeat_equals :
    (∀ (s : CalculatorState) (r b : ℚ) (op : String),
        ResultShape s r b op → op ∈ OPERATORS → (op = "/" → b ≠ 0) →
        ∀ n : Nat,
          (pressEquals^[n] s).currentNumber = ratToString ((fun x => opApply op x b)^[n] r) ∧
          (pressEquals^[n] s).previousNumber = ratToString ((fun x => opApply op x b)^[n] r) ∧
          (pressEquals^[n] s).operation = some op ∧
          (pressEquals^[n] s).lastOperand = s.lastOperand) ∧
    (run [Cmd.num "7", Cmd.key "+", Cmd.num "3", Cmd.key "="]).engine.currentNumber = "10" ∧
    (run [Cmd.num "7", Cmd.key "+", Cmd.num "3", Cmd.key "=", Cmd.key "="]).engine.currentNumber
      = "13" := by
  refine ⟨?_, by decide, by decide⟩
  intro s r b op hs hop hdiv n
  obtain ⟨h1, h2, h3, h4, h5⟩ := repeat_equals_iterate hs hop hdiv n
  exact ⟨h1, h2, h3, h4.trans hs.2.2.2.1.symm⟩

/-- Witness for C1 at the state left by `7 + 3 =` with two further `=`. -/
theorem C1_repeat_equals_witness :
    (ResultShape ⟨"10", "10", some "+", "3", true, "7 + 3 ="⟩ 10 3 "+" ∧
      "+" ∈ OPERATORS ∧ ("+" = "/" → (3 : ℚ) ≠ 0)) ∧
    ((pressEquals^[2] (⟨"10", "10", some "+", "3", true, "7 + 3 ="⟩ : CalculatorState)).currentNumber
        = ratToString ((fun x => opApply "+" x 3)^[2] 10) ∧
      (pressEquals^[2] (⟨"10", "10", some "+", "3", true, "7 + 3 ="⟩ : CalculatorState)).previousNumber
        = ratToString ((fun x => opApply "+" x 3)^[2] 10) ∧
      (pressEquals^[2] (⟨"10", "10", some "+", "3", true, "7 + 3 ="⟩ : CalculatorState)).operation
        = some "+" ∧
      (pressEquals^[2] (⟨"10", "10", some "+", "3", true, "7 + 3 ="⟩ : CalculatorState)).lastOperand
        = (⟨"10", "10", some "+", "3", true, "7 + 3 ="⟩ : CalculatorState).lastOperand) :=
  ⟨⟨by decide, by decide, by decide⟩,
    C1_repeat_equals.1 _ 10 3 "+" (by decide) (by decide) (by decide) 2⟩

/-- C2: Division by zero — `compute(a, "/", 0)` is the `null` (none)
outcome for every `a`, never a numeric result, and the reducer maps that
outcome to the fixed error display state; `6, /, 0, =` lands in
`DIVISION_BY_ZERO_STATE`. -/
theorem C2_division_by_zero :
    (∀ a : ℚ, compute a "/" 0 = none) ∧
    (∀ (s : CalculatorState) (a : ℚ),
        s.currentNumber ≠ "" → toNumberSafe s.currentNumber = some 0 →
        s.isNewNumber = false → s.previousNumber ≠ "" → s.operation = some "/" →
        toNumberSafe s.previousNumber = some a →
        reduceOperator s "=" = (DIVISION_BY_ZERO_STATE, none)) ∧
    (run [Cmd.num "6", Cmd.key "/", Cmd.num "0", Cmd.key "="]).engine =
      DIVISION_BY_ZERO_STATE := by
  have hdz : ∀ a : ℚ, compute a "/" 0 = none := by
    intro a
    show (if (0 : ℚ) = 0 then (none : Option ℚ) else some (a / 0)) = none
    rw [if_pos rfl]
  refine ⟨hdz, ?_, by decide⟩
  intro s a hcur hc0 hnew hprev hop ha
  exact reduce_chain_divzero s "/" a 0 hc0 hcur hnew hprev hop (by decide) ha (hdz a)

/-- Witness for C2 at the state reached by `6, /, 0` before `=`. -/
theorem C2_division_by_zero_witness :
    (("0" : String) ≠ "" ∧ toNumberSafe "0" = some 0 ∧
      ("6" : String) ≠ "" ∧ toNumberSafe "6" = some 6) ∧
    reduceOperator ⟨"0", "6", some "/", "6", false, "6 ÷"⟩ "=" =
      (DIVISION_BY_ZERO_STATE, none) :=
  ⟨by decide,
    C2_division_by_zero.2.1 ⟨"0", "6", some "/", "6", false, "6 ÷"⟩ 6
      (by decide) (by decide) rfl (by decide) rfl (by decide)⟩

/-- A rational exactly representable in decimal: its denominator divides a
power of ten. -/
def IsDecimal (q : ℚ) : Prop := ∃ k : Nat, q.den ∣ 10 ^ k

/-- C3: Decimal arithmetic — for decimal operands and `op ∈ {+,-,*}`,
`compute` returns exactly the mathematical result (the model gives
`decimal.js` its documented exact decimal semantics); in particular
`compute(0.1, "+", 0.2)` is exactly `0.3` (displayed "0.3"), not the
binary-float artifact `0.30000000000000004`. -/
theorem C3_decimal_arithmetic :
    (∀ a b : ℚ, IsDecimal a → IsDecimal b →
        compute a "+" b = some (a + b) ∧ compute a "-" b = some (a - b) ∧
        compute a "*" b = some (a * b)) ∧
    compute (1 / 10 : ℚ) "+" (2 / 10 : ℚ) = some (3 / 10 : ℚ) ∧
    (3 / 10 : ℚ) ≠ (30000000000000004 : ℚ) / 100000000000000000 ∧
    toNumberSafe "0.1" = some (1 / 10 : ℚ) ∧
    toNumberSafe "0.2" = some (2 / 10 : ℚ) ∧
    ratToString (3 / 10 : ℚ) = "0.3" := by
  exact ⟨fun a b _ _ => ⟨rfl, rfl, rfl⟩, by decide, by decide, by decide, by decide, by decide⟩

/-- Witness for C3 at `0.1` and `0.2`. -/
theorem C3_decimal_arithmetic_witness :
    (IsDecimal (1 / 10 : ℚ) ∧ IsDecimal (2 / 10 : ℚ)) ∧
    (compute (1 / 10 : ℚ) "+" (2 / 10 : ℚ) = some ((1 / 10 : ℚ) + (2 / 10 : ℚ)) ∧
      compute (1 / 10 : ℚ) "-" (2 / 10 : ℚ) = some ((1 / 10 : ℚ) - (2 / 10 : ℚ)) ∧
      compute (1 / 10 : ℚ) "*" (2 / 10 : ℚ) = some ((1 / 10 : ℚ) * (2 / 10 : ℚ))) :=
  ⟨⟨⟨1, by decide⟩, ⟨1, by decide⟩⟩,
    C3_decimal_arithmetic.1 (1 / 10) (2 / 10) ⟨1, by decide⟩ ⟨1, by decide⟩⟩

/-- C4: History emission — the reducer's second component equals the
spec's emission rule `specHistoryPayload`: a payload is produced iff the
command is `=` and the evaluation succeeds numerically, shaped
`{expression := "<left> <op> <right>", result, operation, operand := <right>}`
with `<right>` the operand actually used; and a payload is only ever
produced for the `=` command. -/
theorem C4_history_payload :
    (∀ (s : CalculatorState) (w : String),
        (reduceOperator s w).2 = specHistoryPayload s w) ∧
    (∀ (s : CalculatorState) (w : String) (p : HistoryPayload),
        (reduceOperator s w).2 = some p → w = "=") := by
  refine ⟨reduceOperator_snd_eq_spec, ?_⟩
  intro s w p hp
  by_contra hw
  rw [reduceOperator_snd_eq_spec] at hp
  unfold specHistoryPayload at hp
  repeat' split at hp
  all_goals
    first
      | exact Option.noConfusion hp
      | simp_all

/-- Witness for C4 at the chained state `5 + 3` receiving `=`. -/
theorem C4_history_payload_witness :
    (reduceOperator ⟨"3", "5", some "+", "5", false, "5 +"⟩ "=").2 =
      some ⟨"5 + 3", "8", "+", "3"⟩ ∧
    ("=" : String) = "=" :=
  ⟨by decide,
    C4_history_payload.2 ⟨"3", "5", some "+", "5", false, "5 +"⟩ "="
      ⟨"5 + 3", "8", "+", "3"⟩ (by decide)⟩

/-- C5: Idempotent ledger commit — committing the same payload twice in
immediate succession is a no-op the second time (the dedup key equals the
most recently committed key), so a fresh payload appends exactly one
entry. -/
theorem C5_commit_idempotent :
    (∀ (p : HistoryPayload) (h : List HistoryItem) (k : String),
        commitPayload p (commitPayload p h k).1 (commitPayload p h k).2 =
          commitPayload p h k) ∧
    (∀ (p : HistoryPayload) (h : List HistoryItem) (k : String),
        k ≠ payloadKey p →
        (commitPayload p (commitPayload p h k).1 (commitPayload p h k).2).1.length =
          h.length + 1) := by
  refine ⟨commit_twice_eq, ?_⟩
  intro p h k hk
  rw [commit_twice_eq]
  exact commit_new_length p h k hk

/-- Witness for C5 committing a fresh payload twice into an empty ledger. -/
theorem C5_commit_idempotent_witness :
    ("" : String) ≠ payloadKey ⟨"5 + 3", "8", "+", "3"⟩ ∧
    (commitPayload ⟨"5 + 3", "8", "+", "3"⟩
        (commitPayload ⟨"5 + 3", "8", "+", "3"⟩ [] "").1
        (commitPayload ⟨"5 + 3", "8", "+", "3"⟩ [] "").2).1.length = 0 + 1 :=
  ⟨by decide, C5_commit_idempotent.2 ⟨"5 + 3", "8", "+", "3"⟩ [] "" (by decide)⟩

/-- C6: State invariant — after any command sequence from the initial
state, `operation` is non-null iff `previousNumber` is non-empty; and the
division-by-zero error state has `previousNumber = ""`, `operation =
null`. -/
theorem C6_state_invariant :
    (∀ cmds : List Cmd,
        (run cmds).engine.operation ≠ none ↔ (run cmds).engine.previousNumber ≠ "") ∧
    DIVISION_BY_ZERO_STATE.previousNumber = "" ∧
    DIVISION_BY_ZERO_STATE.operation = none :=
  ⟨fun cmds => (run_sysInv cmds).1, rfl, rfl⟩

/-- C7: New-chain rule — right after a result (isNewNumber true, operand
displayed, previous operation pending), an operator command starts a new
chain: previousNumber takes the displayed text, the operator replaces the
old one, lastOperand is cleared, currentNumber empties, and nothing is
evaluated or emitted; hence `9, -, 4, =, +, 3, =` shows "5" then "8". -/
theorem C7_new_chain :
    (∀ (s : CalculatorState) (w o : String) (v : ℚ),
        toNumberSafe s.currentNumber = some v → s.currentNumber ≠ "" →
        s.isNewNumber = true → s.previousNumber ≠ "" → s.operation = some o → o ≠ "" →
        isOperator w = true →
        reduceOperator s w =
          ({ currentNumber := ""
             previousNumber := s.currentNumber
             operation := some w
             lastOperand := ""
             isNewNumber := true
             historyExpression := s.currentNumber ++ " " ++ toDisplayOperator w }, none)) ∧
    (run [Cmd.num "9", Cmd.key "-", Cmd.num "4", Cmd.key "="]).engine.currentNumber = "5" ∧
    (run [Cmd.num "9", Cmd.key "-", Cmd.num "4", Cmd.key "=", Cmd.key "+", Cmd.num "3",
        Cmd.key "="]).engine.currentNumber = "8" := by
  exact ⟨reduce_new_chain, by decide, by decide⟩

/-- Witness for C7 at the state left by `9 - 4 =` receiving `+`. -/
theorem C7_new_chain_witness :
    (toNumberSafe "5" = some 5 ∧ ("5" : String) ≠ "" ∧ ("-" : String) ≠ "" ∧
      isOperator "+" = true) ∧
    reduceOperator ⟨"5", "5", some "-", "4", true, "9 - 4 ="⟩ "+" =
      ({ currentNumber := ""
         previousNumber := "5"
         operation := some "+"
         lastOperand := ""
         isNewNumber := true
         historyExpression := "5" ++ " " ++ toDisplayOperator "+" }, none) :=
  ⟨by decide,
    C7_new_chain.1 ⟨"5", "5", some "-", "4", true, "9 - 4 ="⟩ "+" "-" 5
      (by decide) (by decide) rfl (by decide) rfl (by decide) (by decide)⟩

/-- C8: History recall — selecting entry `e` rebuilds the engine exactly
as a just-completed calculation (currentNumber = previousNumber =
e.result, operation = e.operation, lastOperand = e.operand, isNewNumber
true, historyExpression "e.expression ="), leaves the ledger untouched,
and a following `=` computes `compute(e.result, e.operation, e.operand)`. -/
theorem C8_history_select :
    ∀ (sys : SystemState) (i : Nat) (item : HistoryItem),
      sys.history[i]? = some item →
      (step sys (Cmd.select i)).engine =
        { currentNumber := item.result
          previousNumber := item.result
          operation := some item.operation
          lastOperand := item.operand
          isNewNumber := true
          historyExpression := item.expression ++ " =" } ∧
      (step sys (Cmd.select i)).history = sys.history ∧
      (step sys (Cmd.select i)).lastKey = sys.lastKey ∧
      (∀ a b r : ℚ,
          item.result ≠ "" → item.operation ≠ "" → item.operand ≠ "" →
          toNumberSafe item.result = some a → toNumberSafe item.operand = some b →
          compute a item.operation b = some r →
          (reduceOperator (step sys (Cmd.select i)).engine "=").1.currentNumber =
            ratToString r) := by
  intro sys i item hi
  have hstep : step sys (Cmd.select i) =
      { sys with engine :=
        { currentNumber := item.result
          previousNumber := item.result
          operation := some item.operation
          lastOperand := item.operand
          isNewNumber := true
          historyExpression := item.expression ++ " =" } } := by
    simp only [step, hi]
  refine ⟨by rw [hstep], by rw [hstep], by rw [hstep], ?_⟩
  intro a b r h1 h2 h3 h4 h5 h6
  rw [hstep]
  rw [reduce_repeat_equals _ item.operation a b r ?hnr rfl h1 rfl h2 h3 h4 h5 h6]
  case hnr =>
    intro hcontra
    rw [h4] at hcontra
    exact Option.noConfusion hcontra.2

/-- Witness for C8 on a one-entry ledger holding `7 + 3 = 10`. -/
theorem C8_history_select_witness :
    ((⟨RESET_STATE, [⟨"7 + 3", "10", "+", "3"⟩], "7 + 3|10"⟩ : SystemState).history[0]? =
        some ⟨"7 + 3", "10", "+", "3"⟩ ∧
      ("10" : String) ≠ "" ∧ toNumberSafe "10" = some 10 ∧ toNumberSafe "3" = some 3 ∧
      compute 10 "+" 3 = some 13) ∧
    ((step (⟨RESET_STATE, [⟨"7 + 3", "10", "+", "3"⟩], "7 + 3|10"⟩ : SystemState)
        (Cmd.select 0)).engine =
      { currentNumber := "10"
        previousNumber := "10"
        operation := some "+"
        lastOperand := "3"
        isNewNumber := true
        historyExpression := "7 + 3" ++ " =" }) ∧
    (reduceOperator (step (⟨RESET_STATE, [⟨"7 + 3", "10", "+", "3"⟩], "7 + 3|10"⟩ : SystemState)
        (Cmd.select 0)).engine "=").1.currentNumber = ratToString 13 :=
  ⟨by decide,
    (C8_history_select _ 0 ⟨"7 + 3", "10", "+", "3"⟩ (by decide)).1,
    (C8_history_select _ 0 ⟨"7 + 3", "10", "+", "3"⟩ (by decide)).2.2.2 10 3 13
      (by decide) (by decide) (by decide) (by decide) (by decide) (by decide)⟩

/-- C9: Operator substitution frame — in the awaiting-operand state an
operator command replaces only `operation` (plus the `historyExpression`
presentation hint); `currentNumber`, `previousNumber`, `lastOperand` and
`isNewNumber` are untouched, nothing is evaluated, and no history event
is emitted. -/
theorem C9_operator_substitution :
    ∀ (s : CalculatorState) (w o : String),
      s.currentNumber = "" → s.previousNumber ≠ "" → s.operation = some o → o ≠ "" →
      isOperator w = true →
      (reduceOperator s w).1.currentNumber = s.currentNumber ∧
      (reduceOperator s w).1.previousNumber = s.previousNumber ∧
      (reduceOperator s w).1.lastOperand = s.lastOperand ∧
      (reduceOperator s w).1.isNewNumber = s.isNewNumber ∧
      (reduceOperator s w).1.operation = some w ∧
      (reduceOperator s w).1.historyExpression =
        s.previousNumber ++ " " ++ toDisplayOperator w ∧
      (reduceOperator s w).2 = none := by
  intro s w o h1 h2 h3 h4 h5
  rw [reduce_substitution s w o h1 h2 h3 h4 h5]
  exact ⟨rfl, rfl, rfl, rfl, rfl, rfl, rfl⟩

/-- Witness for C9 at `7 +` receiving `-`. -/
theorem C9_operator_substitution_witness :
    (("" : String) = "" ∧ ("7" : String) ≠ "" ∧ ("+" : String) ≠ "" ∧
      isOperator "-" = true) ∧
    ((reduceOperator ⟨"", "7", some "+", "7", true, "7 +"⟩ "-").1.operation = some "-" ∧
      (reduceOperator ⟨"", "7", some "+", "7", true, "7 +"⟩ "-").1.lastOperand = "7" ∧
      (reduceOperator ⟨"", "7", some "+", "7", true, "7 +"⟩ "-").2 = none) :=
  ⟨by decide,
    (C9_operator_substitution ⟨"", "7", some "+", "7", true, "7 +"⟩ "-" "+"
        rfl (by decide) rfl (by decide) (by decide)).2.2.2.2.1,
    (C9_operator_substitution ⟨"", "7", some "+", "7", true, "7 +"⟩ "-" "+"
        rfl (by decide) rfl (by decide) (by decide)).2.2.1,
    (C9_operator_substitution ⟨"", "7", some "+", "7", true, "7 +"⟩ "-" "+"
        rfl (by decide) rfl (by decide) (by decide)).2.2.2.2.2.2⟩

/-- C10: Dedup guard — the guard keeps only the single most recent key
and `Clear` never touches the ledger or the key; every two consecutive
ledger entries have distinct keys; and re-entering the same calculation
after `Clear` (with no different commit between) is silently dropped:
`5,+,3,=,C,5,+,3,=` leaves exactly one entry. -/
theorem C10_dedup_guard :
    (∀ sys : SystemState,
        (step sys Cmd.clear).history = sys.history ∧
        (step sys Cmd.clear).lastKey = sys.lastKey) ∧
    (∀ (cmds : List Cmd) (i : Nat) (a b : HistoryItem),
        (run cmds).history[i]? = some a → (run cmds).history[i + 1]? = some b →
        itemKey a ≠ itemKey b) ∧
    (run [Cmd.num "5", Cmd.key "+", Cmd.num "3", Cmd.key "=", Cmd.clear,
        Cmd.num "5", Cmd.key "+", Cmd.num "3", Cmd.key "="]).history.length = 1 ∧
    (run [Cmd.num "5", Cmd.key "+", Cmd.num "3", Cmd.key "=", Cmd.clear,
        Cmd.num "5", Cmd.key "+", Cmd.num "3", Cmd.key "="]).engine.currentNumber = "8" ∧
    (run [Cmd.num "5", Cmd.key "+", Cmd.num "3", Cmd.key "=", Cmd.clear,
        Cmd.num "5", Cmd.key "+", Cmd.num "3", Cmd.key "="]).lastKey = "5 + 3|8" := by
  refine ⟨fun sys => ⟨rfl, rfl⟩, ?_, by decide, by decide, by decide⟩
  intro cmds i a b ha hb
  exact chain_ne_getElem? _ (run_ledgerInv cmds).1 i a b ha hb

/-- Witness for C10 on a run that commits two distinct calculations. -/
theorem C10_dedup_guard_witness :
    ((run [Cmd.num "5", Cmd.key "+", Cmd.num "3", Cmd.key "=", Cmd.clear,
        Cmd.num "4", Cmd.key "+", Cmd.num "4", Cmd.key "="]).history[0]? =
      some ⟨"4 + 4", "8", "+", "4"⟩ ∧
      (run [Cmd.num "5", Cmd.key "+", Cmd.num "3", Cmd.key "=", Cmd.clear,
        Cmd.num "4", Cmd.key "+", Cmd.num "4", Cmd.key "="]).history[0 + 1]? =
      some ⟨"5 + 3", "8", "+", "3"⟩) ∧
    itemKey ⟨"4 + 4", "8", "+", "4"⟩ ≠ itemKey ⟨"5 + 3", "8", "+", "3"⟩ :=
  ⟨by decide,
    C10_dedup_guard.2.1 [Cmd.num "5", Cmd.key "+", Cmd.num "3", Cmd.key "=", Cmd.clear,
      Cmd.num "4", Cmd.key "+", Cmd.num "4", Cmd.key "="] 0
      ⟨"4 + 4", "8", "+", "4"⟩ ⟨"5 + 3", "8", "+", "3"⟩ (by decide) (by decide)⟩

end CalcApp
